import Mathlib

/-!
Verification of the turntable two-phase simulation (ModSimPy, chapter 25).

The notebook models a turntable pushed with constant force until it has
rotated through a target angle (phase 1), after which it glides under
friction alone until it stops (phase 2).  The state is the pair
(theta, omega); physical quantities are embedded as rationals, dropping
the unit tags of the Pint layer (the spec treats unit arithmetic as an
external library and unit mismatch as a fatal configuration error, so
all quantities here are plain scalars).

Definitions named after notebook symbols (`make_system`, `slope_func`,
`event_func1`, `event_func2`, `run_two_phases`, `error_func1`) are direct
translations of the notebook cells.  The modsim library and the pandas
splice that the notebook calls are not part of the sources; they are
modelled from the spec's contracts and are marked as such in their doc
comments.
-/

namespace Chap25

/-- The instantaneous state of the turntable: angle `theta` (radians) and
angular velocity `omega` (radians/second). -/
structure State where
  theta : ℚ
  omega : ℚ
  deriving DecidableEq, Repr

/-- Modelled from the spec: the `Params` configuration record of the
notebook — an immutable labeled record of physical quantities, supporting
"derive a copy with some fields overridden" (structure update).  Field
names and the reference values follow the notebook's `params` cell. -/
structure Params where
  radius_disk : ℚ
  mass_disk : ℚ
  radius_pot : ℚ
  mass_pot : ℚ
  force : ℚ
  torque_friction : ℚ
  theta_end : ℚ
  t_end : ℚ
  deriving DecidableEq, Repr

/-- Modelled from the spec: the modsim `System` record — a configuration
record bundled with an initial state, the derived moment of inertia `I`,
and a start time `t_0` (defaulting to 0 when not supplied, as in
`make_system`; phase 2 overrides it with the end time of phase 1). -/
structure System where
  radius_disk : ℚ
  mass_disk : ℚ
  radius_pot : ℚ
  mass_pot : ℚ
  force : ℚ
  torque_friction : ℚ
  theta_end : ℚ
  t_end : ℚ
  init : State
  I : ℚ
  t_0 : ℚ
  deriving DecidableEq, Repr

/-- Notebook function `make_system`: creates the zero initial state and
computes the total moment of inertia of disk and pot from the
configuration. -/
def make_system (params : Params) : System :=
  let init : State := { theta := 0, omega := 0 }
  let I_disk := params.mass_disk * params.radius_disk ^ 2 / 2
  let I_pot := params.mass_pot * params.radius_pot ^ 2
  { radius_disk := params.radius_disk
    mass_disk := params.mass_disk
    radius_pot := params.radius_pot
    mass_pot := params.mass_pot
    force := params.force
    torque_friction := params.torque_friction
    theta_end := params.theta_end
    t_end := params.t_end
    init := init
    I := I_disk + I_pot
    t_0 := 0 }

/-- Notebook function `slope_func`: derivatives of the state variables.
Net torque is `radius_disk * force - torque_friction`; angular
acceleration is torque over the moment of inertia. -/
def slope_func (state : State) (_t : ℚ) (system : System) : ℚ × ℚ :=
  let torque := system.radius_disk * system.force - system.torque_friction
  let alpha := torque / system.I
  (state.omega, alpha)

/-- Notebook function `event_func1`: stops phase 1 when `theta` reaches
`theta_end`. -/
def event_func1 (state : State) (_t : ℚ) (system : System) : ℚ :=
  state.theta - system.theta_end

/-- Notebook function `event_func2`: stops phase 2 when `omega` is 0. -/
def event_func2 (state : State) (_t : ℚ) (_system : System) : ℚ :=
  state.omega

/-- A time-indexed trajectory of states, as produced by the integrator and
consumed by the splicer: a list of (time, state) samples in increasing
time order. -/
abbrev Trajectory := List (ℚ × State)

/-- Termination report of one integration run: either the event function
crossed zero (`event`) or the integrator ran to the time horizon without
the requested crossing (`horizon`).  Models the `details` object returned
by `run_ode_solver`. -/
inductive TermReason where
  | event : TermReason
  | horizon : TermReason
  deriving DecidableEq, Repr

/-- Modelled from the spec: one explicit-Euler step of the integrator,
advancing the state by `dt` along the derivatives supplied by the slope
function. -/
def euler_step (slope : State → ℚ → System → ℚ × ℚ) (system : System)
    (t dt : ℚ) (st : State) : State :=
  { theta := st.theta + dt * (slope st t system).1
    omega := st.omega + dt * (slope st t system).2 }

/-- Modelled from the spec: the integrator fires the event when the event
function changes sign between consecutive steps (a proper crossing, from
strictly one side to the other side or to zero). -/
def eventFires (e0 e1 : ℚ) : Bool :=
  decide ((e0 < 0 ∧ 0 ≤ e1) ∨ (0 < e0 ∧ e1 ≤ 0))

/-- Modelled from the spec: the fraction of the step at which the linear
interpolant of the event values crosses zero. -/
def eventFrac (e0 e1 : ℚ) : ℚ :=
  e0 / (e0 - e1)

/-- Modelled from the spec: linear interpolation of the state across one
step, used to place the terminal sample at the interpolated crossing. -/
def interp_state (st st' : State) (frac : ℚ) : State :=
  { theta := st.theta + frac * (st'.theta - st.theta)
    omega := st.omega + frac * (st'.omega - st.omega) }

/-- Modelled from the spec: the stepping loop of the event-terminated
integrator.  From sample `(t, st)` it computes the next Euler sample; on a
sign change of the event function it terminates at the interpolated
crossing and reports `event`; with the fuel exhausted (the horizon
reached) it reports `horizon`. -/
def integrateGo (slope : State → ℚ → System → ℚ × ℚ)
    (events : State → ℚ → System → ℚ) (system : System) (dt : ℚ) :
    ℕ → ℚ → State → Trajectory × TermReason
  | 0, t, st => ([(t, st)], TermReason.horizon)
  | k + 1, t, st =>
    let st' := euler_step slope system t dt st
    let e0 := events st t system
    let e1 := events st' (t + dt) system
    if eventFires e0 e1 then
      ([(t, st), (t + dt * eventFrac e0 e1, interp_state st st' (eventFrac e0 e1))],
        TermReason.event)
    else
      ((t, st) :: (integrateGo slope events system dt k (t + dt) st').1,
        (integrateGo slope events system dt k (t + dt) st').2)

/-- Number of integrator steps from start time to horizon in this model of
the external integrator. -/
def numSteps : ℕ := 20

/-- Modelled from the spec: `run_ode_solver` of the modsim library —
integrates the system forward from `(t_0, init)`, invoking the slope
function stepwise, and stops at the first zero-crossing of the event
function (interpolated) or at the horizon `t_end`, reporting which
happened.  If the horizon does not lie ahead of the start time, the
trajectory is the single initial sample. -/
def run_ode_solver (system : System) (slope : State → ℚ → System → ℚ × ℚ)
    (events : State → ℚ → System → ℚ) : Trajectory × TermReason :=
  if system.t_0 < system.t_end then
    integrateGo slope events system ((system.t_end - system.t_0) / (numSteps : ℚ))
      numSteps system.t_0 system.init
  else
    ([(system.t_0, system.init)], TermReason.horizon)

/-- Modelled from the spec: the label of the last sample of a trajectory
(pandas `last_label`; the notebook multiplies it by the seconds unit,
which the embedding drops). -/
def last_label (tr : Trajectory) : ℚ :=
  (tr.getLast?.map Prod.fst).getD 0

/-- Modelled from the spec: the state stored at the last sample of a
trajectory (pandas `last_row`). -/
def last_row (tr : Trajectory) : State :=
  (tr.getLast?.map Prod.snd).getD { theta := 0, omega := 0 }

/-- Modelled from the spec: the pandas `combine_first` splice on
time-indexed frames.  The result is indexed by the union of the two time
indexes in increasing order; since both trajectories are fully populated
(no missing values), the caller's sample is kept at a shared time label
and the other trajectory contributes its remaining labels. -/
def combineFirst : Trajectory → Trajectory → Trajectory
  | [], t2 => t2
  | t1, [] => t1
  | a :: t1, b :: t2 =>
    if a.1 < b.1 then a :: combineFirst t1 (b :: t2)
    else if b.1 < a.1 then b :: combineFirst (a :: t1) t2
    else a :: combineFirst t1 t2
  termination_by t1 t2 => t1.length + t2.length

/-- Notebook function `run_two_phases`: overrides `force` and
`torque_friction` in the configuration, runs phase 1 under `event_func1`,
derives the phase-2 system from the phase-1 system with zero force, start
time and initial state taken from the final sample of phase 1, runs phase
2 under `event_func2`, and splices the two result trajectories with
`combine_first`. -/
def run_two_phases (force torque_friction : ℚ) (params : Params) : Trajectory :=
  let params' := { params with force := force, torque_friction := torque_friction }
  let system1 := make_system params'
  let results1 := (run_ode_solver system1 slope_func event_func1).1
  let t_0 := last_label results1
  let init2 := last_row results1
  let system2 := { system1 with t_0 := t_0, init := init2, force := 0 }
  let results2 := (run_ode_solver system2 slope_func event_func2).1
  combineFirst results1 results2

/-- Notebook function `error_func1`: error function for the friction
calibration — runs the two phases with the force fixed at 1 newton and the
guessed friction torque and returns the final angle minus the observed
target of 1.5 radians.  (The notebook also prints the guess and the final
angle; printing does not affect the returned value and is dropped.) -/
def error_func1 (torque_friction : ℚ) (params : Params) : ℚ :=
  let force : ℚ := 1
  let results := run_two_phases force torque_friction params
  let theta_final := (last_row results).theta
  theta_final - 3 / 2

/-- The configuration record that the phase-1 run inside `run_two_phases`
is built from: the base configuration with `force` and `torque_friction`
overridden by the driver's arguments. -/
def phase1_params (force torque_friction : ℚ) (params : Params) : Params :=
  { params with force := force, torque_friction := torque_friction }

/-- The phase-1 system built inside `run_two_phases`. -/
def system1_of (force torque_friction : ℚ) (params : Params) : System :=
  make_system (phase1_params force torque_friction params)

/-- The phase-1 trajectory computed inside `run_two_phases`. -/
def results1_of (force torque_friction : ℚ) (params : Params) : Trajectory :=
  (run_ode_solver (system1_of force torque_friction params) slope_func event_func1).1

/-- The phase-1 termination report computed inside `run_two_phases` (the
notebook's `details1`, which `run_two_phases` never inspects). -/
def details1_of (force torque_friction : ℚ) (params : Params) : TermReason :=
  (run_ode_solver (system1_of force torque_friction params) slope_func event_func1).2

/-- The splice time: the final time label of the phase-1 trajectory. -/
def t0_of (force torque_friction : ℚ) (params : Params) : ℚ :=
  last_label (results1_of force torque_friction params)

/-- The phase-2 initial state: the final state of the phase-1
trajectory. -/
def init2_of (force torque_friction : ℚ) (params : Params) : State :=
  last_row (results1_of force torque_friction params)

/-- The phase-2 system built inside `run_two_phases`: the phase-1 system
with zero force, start time `t0_of`, and initial state `init2_of`. -/
def system2_of (force torque_friction : ℚ) (params : Params) : System :=
  { system1_of force torque_friction params with
      t_0 := t0_of force torque_friction params
      init := init2_of force torque_friction params
      force := 0 }

/-- The phase-2 trajectory computed inside `run_two_phases`. -/
def results2_of (force torque_friction : ℚ) (params : Params) : Trajectory :=
  (run_ode_solver (system2_of force torque_friction params) slope_func event_func2).1

/-- A trajectory is time-ordered when its time labels are strictly
increasing. -/
def timeOrdered (tr : Trajectory) : Prop :=
  List.Pairwise (fun a b => a.1 < b.1) tr

/-- The sample a trajectory stores at time label `t`, if any. -/
def sampleAt (tr : Trajectory) (t : ℚ) : Option State :=
  (tr.find? fun a => decide (a.1 = t)).map Prod.snd

/-- The errors the spec's two-phase driver can signal. -/
inductive PhaseError where
  | phaseIncomplete : PhaseError
  deriving DecidableEq, Repr

/-- Modelled from the spec: the two-phase driver as the spec describes it
(section 4.4 and the error taxonomy) — identical to `run_two_phases`
except that when the phase-1 integration runs to the horizon without the
phase-1 event firing it signals the distinct `phaseIncomplete` error
instead of proceeding with the partial phase-1 data. -/
def run_two_phases_spec (force torque_friction : ℚ) (params : Params) :
    Except PhaseError Trajectory :=
  let params' := { params with force := force, torque_friction := torque_friction }
  let system1 := make_system params'
  let res1 := run_ode_solver system1 slope_func event_func1
  if res1.2 = TermReason.horizon then
    Except.error PhaseError.phaseIncomplete
  else
    let results1 := res1.1
    let t_0 := last_label results1
    let init2 := last_row results1
    let system2 := { system1 with t_0 := t_0, init := init2, force := 0 }
    let results2 := (run_ode_solver system2 slope_func event_func2).1
    Except.ok (combineFirst results1 results2)

/-- The notebook's reference configuration (`params` cell): disk radius
0.5 m, disk mass 7 kg, pot radius 0.4 m, pot mass 0.3 kg, force 1 N,
friction torque 0.2 N·m, target angle 0.5 rad, horizon 20 s. -/
def params₀ : Params :=
  { radius_disk := 1 / 2
    mass_disk := 7
    radius_pot := 2 / 5
    mass_pot := 3 / 10
    force := 1
    torque_friction := 1 / 5
    theta_end := 1 / 2
    t_end := 20 }

/-! ### General lemmas about the integrator and the splice -/

/-- The first sample of the stepping loop is the starting sample. -/
theorem integrateGo_fst_head (slope : State → ℚ → System → ℚ × ℚ)
    (events : State → ℚ → System → ℚ) (system : System) (dt : ℚ)
    (k : ℕ) (t : ℚ) (st : State) :
    ((integrateGo slope events system dt k t st).1).head? = some (t, st) := by
  cases k with
  | zero => rfl
  | succ k =>
    simp only [integrateGo]
    split <;> rfl

/-- The first sample of a solver run is the system's start time and
initial state. -/
theorem run_ode_solver_fst_head (system : System)
    (slope : State → ℚ → System → ℚ × ℚ) (events : State → ℚ → System → ℚ) :
    ((run_ode_solver system slope events).1).head? = some (system.t_0, system.init) := by
  unfold run_ode_solver
  split
  · exact integrateGo_fst_head ..
  · rfl

/-- A solver trajectory is never empty. -/
theorem run_ode_solver_fst_ne_nil (system : System)
    (slope : State → ℚ → System → ℚ × ℚ) (events : State → ℚ → System → ℚ) :
    (run_ode_solver system slope events).1 ≠ [] := by
  intro h
  have := run_ode_solver_fst_head system slope events
  rw [h] at this
  exact Option.noConfusion this

/-- Every sample of the splice comes from one of the two trajectories. -/
theorem mem_combineFirst (t1 t2 : Trajectory) :
    ∀ x ∈ combineFirst t1 t2, x ∈ t1 ∨ x ∈ t2 := by
  induction t1, t2 using combineFirst.induct with
  | case1 t2 => intro x h; rw [combineFirst.eq_1] at h; exact Or.inr h
  | case2 t1 hne => intro x h; rw [combineFirst.eq_2 t1 hne] at h; exact Or.inl h
  | case3 a t1 b t2 hab ih =>
    intro x h
    rw [combineFirst.eq_3, if_pos hab] at h
    rcases List.mem_cons.mp h with h | h
    · exact Or.inl (h ▸ List.mem_cons_self _ _)
    · rcases ih x h with h | h
      · exact Or.inl (List.mem_cons_of_mem _ h)
      · exact Or.inr h
  | case4 a t1 b t2 hab hba ih =>
    intro x h
    rw [combineFirst.eq_3, if_neg hab, if_pos hba] at h
    rcases List.mem_cons.mp h with h | h
    · exact Or.inr (h ▸ List.mem_cons_self _ _)
    · rcases ih x h with h | h
      · exact Or.inl h
      · exact Or.inr (List.mem_cons_of_mem _ h)
  | case5 a t1 b t2 hab hba ih =>
    intro x h
    rw [combineFirst.eq_3, if_neg hab, if_neg hba] at h
    rcases List.mem_cons.mp h with h | h
    · exact Or.inl (h ▸ List.mem_cons_self _ _)
    · rcases ih x h with h | h
      · exact Or.inl (List.mem_cons_of_mem _ h)
      · exact Or.inr (List.mem_cons_of_mem _ h)

/-- Every sample of the first trajectory survives the splice (pandas
`combine_first` keeps the caller's samples). -/
theorem left_mem_combineFirst (t1 t2 : Trajectory) :
    ∀ x ∈ t1, x ∈ combineFirst t1 t2 := by
  induction t1, t2 using combineFirst.induct with
  | case1 t2 => intro x h; exact absurd h (List.not_mem_nil x)
  | case2 t1 hne => intro x h; rw [combineFirst.eq_2 t1 hne]; exact h
  | case3 a t1 b t2 hab ih =>
    intro x h
    rw [combineFirst.eq_3, if_pos hab]
    rcases List.mem_cons.mp h with h | h
    · exact h ▸ List.mem_cons_self _ _
    · exact List.mem_cons_of_mem _ (ih x h)
  | case4 a t1 b t2 hab hba ih =>
    intro x h
    rw [combineFirst.eq_3, if_neg hab, if_pos hba]
    exact List.mem_cons_of_mem _ (ih x h)
  | case5 a t1 b t2 hab hba ih =>
    intro x h
    rw [combineFirst.eq_3, if_neg hab, if_neg hba]
    rcases List.mem_cons.mp h with h | h
    · exact h ▸ List.mem_cons_self _ _
    · exact List.mem_cons_of_mem _ (ih x h)

/-- Splicing two time-ordered trajectories yields a time-ordered
trajectory. -/
theorem timeOrdered_combineFirst (t1 t2 : Trajectory)
    (h1 : timeOrdered t1) (h2 : timeOrdered t2) :
    timeOrdered (combineFirst t1 t2) := by
  unfold timeOrdered at h1 h2 ⊢
  induction t1, t2 using combineFirst.induct with
  | case1 t2 => rw [combineFirst.eq_1]; exact h2
  | case2 t1 hne => rw [combineFirst.eq_2 t1 hne]; exact h1
  | case3 a t1 b t2 hab ih =>
    rw [combineFirst.eq_3, if_pos hab]
    rw [List.pairwise_cons] at h1 ⊢
    refine ⟨fun x hx => ?_, ih h1.2 h2⟩
    rcases mem_combineFirst _ _ x hx with h | h
    · exact h1.1 x h
    · rcases List.mem_cons.mp h with h | h
      · exact h ▸ hab
      · exact hab.trans ((List.pairwise_cons.mp h2).1 x h)
  | case4 a t1 b t2 hab hba ih =>
    rw [combineFirst.eq_3, if_neg hab, if_pos hba]
    rw [List.pairwise_cons] at h2 ⊢
    refine ⟨fun x hx => ?_, ih h1 h2.2⟩
    rcases mem_combineFirst _ _ x hx with h | h
    · rcases List.mem_cons.mp h with h | h
      · exact h ▸ hba
      · exact hba.trans ((List.pairwise_cons.mp h1).1 x h)
    · exact h2.1 x h
  | case5 a t1 b t2 hab hba ih =>
    have hba' : b.1 = a.1 := le_antisymm (not_lt.mp hab) (not_lt.mp hba)
    rw [combineFirst.eq_3, if_neg hab, if_neg hba]
    rw [List.pairwise_cons] at h1 ⊢
    refine ⟨fun x hx => ?_, ih h1.2 (List.pairwise_cons.mp h2).2⟩
    rcases mem_combineFirst _ _ x hx with h | h
    · exact h1.1 x h
    · exact hba' ▸ (List.pairwise_cons.mp h2).1 x h

/-- When the event fires, the interpolated crossing lies a positive
fraction of the way into the step. -/
theorem eventFrac_pos (e0 e1 : ℚ) (h : eventFires e0 e1 = true) :
    0 < eventFrac e0 e1 := by
  rw [eventFires, decide_eq_true_eq] at h
  unfold eventFrac
  rcases h with ⟨h0, h1⟩ | ⟨h0, h1⟩
  · exact div_pos_iff.mpr (Or.inr ⟨h0, sub_neg.mpr (h0.trans_le h1)⟩)
  · exact div_pos (by exact h0) (sub_pos.mpr (h1.trans_lt h0))

/-- Every sample of the stepping loop lies at or after the starting
time. -/
theorem integrateGo_fst_lb (slope : State → ℚ → System → ℚ × ℚ)
    (events : State → ℚ → System → ℚ) (system : System) (dt : ℚ)
    (hdt : 0 < dt) :
    ∀ (k : ℕ) (t : ℚ) (st : State),
      ∀ x ∈ (integrateGo slope events system dt k t st).1, t ≤ x.1 := by
  intro k
  induction k with
  | zero =>
    intro t st x hx
    simp only [integrateGo, List.mem_singleton] at hx
    subst hx
    exact le_refl t
  | succ k ih =>
    intro t st x hx
    simp only [integrateGo] at hx
    split at hx
    next hf =>
      rcases List.mem_cons.mp hx with h | h
      · subst h; exact le_refl t
      · rw [List.mem_singleton] at h
        subst h
        exact le_of_lt (lt_add_of_pos_right t (mul_pos hdt (eventFrac_pos _ _ hf)))
    next hf =>
      rcases List.mem_cons.mp hx with h | h
      · subst h; exact le_refl t
      · exact le_of_lt ((lt_add_of_pos_right t hdt).trans_le (ih (t + dt) _ x h))

/-- With a positive step, the stepping loop produces a time-ordered
trajectory. -/
theorem integrateGo_fst_timeOrdered (slope : State → ℚ → System → ℚ × ℚ)
    (events : State → ℚ → System → ℚ) (system : System) (dt : ℚ)
    (hdt : 0 < dt) :
    ∀ (k : ℕ) (t : ℚ) (st : State),
      timeOrdered (integrateGo slope events system dt k t st).1 := by
  intro k
  induction k with
  | zero =>
    intro t st
    simp only [integrateGo, timeOrdered]
    exact List.pairwise_singleton _ _
  | succ k ih =>
    intro t st
    simp only [integrateGo, timeOrdered]
    split
    next hf =>
      refine List.pairwise_cons.mpr ⟨?_, List.pairwise_singleton _ _⟩
      intro x hx
      rw [List.mem_singleton] at hx
      subst hx
      exact lt_add_of_pos_right t (mul_pos hdt (eventFrac_pos _ _ hf))
    next hf =>
      refine List.pairwise_cons.mpr ⟨?_, ih (t + dt) _⟩
      intro x hx
      exact (lt_add_of_pos_right t hdt).trans_le
        (integrateGo_fst_lb slope events system dt hdt k (t + dt) _ x hx)

/-- Every solver trajectory is time-ordered. -/
theorem run_ode_solver_fst_timeOrdered (system : System)
    (slope : State → ℚ → System → ℚ × ℚ) (events : State → ℚ → System → ℚ) :
    timeOrdered (run_ode_solver system slope events).1 := by
  unfold run_ode_solver
  split
  next h =>
    have hdt : 0 < (system.t_end - system.t_0) / (numSteps : ℚ) :=
      div_pos (sub_pos.mpr h) (by norm_num [numSteps])
    exact integrateGo_fst_timeOrdered slope events system _ hdt numSteps
      system.t_0 system.init
  next h =>
    exact List.pairwise_singleton _ _

/-- A nonempty trajectory contains the sample formed from its last label
and last row. -/
theorem last_mem (tr : Trajectory) (h : tr ≠ []) :
    (last_label tr, last_row tr) ∈ tr := by
  have hg := List.getLast?_eq_getLast tr h
  simp only [last_label, last_row, hg, Option.map_some', Option.getD_some, Prod.mk.eta]
  exact List.getLast_mem h

/-- Looking up the time label of the head sample returns its state. -/
theorem sampleAt_cons_self (t : ℚ) (v : State) (tl : Trajectory) :
    sampleAt ((t, v) :: tl) t = some v := by
  unfold sampleAt
  rw [List.find?_cons_of_pos _ (by simp)]
  rfl

/-- In a time-ordered trajectory, a stored sample is exactly what lookup
at its time label returns. -/
theorem sampleAt_eq_of_mem (tr : Trajectory) (ho : timeOrdered tr) (t : ℚ)
    (v : State) (hm : (t, v) ∈ tr) : sampleAt tr t = some v := by
  induction tr with
  | nil => cases hm
  | cons a tl ih =>
    have ho' := List.pairwise_cons.mp ho
    by_cases ht : a.1 = t
    · have hfind : sampleAt (a :: tl) t = some a.2 := by
        unfold sampleAt
        rw [List.find?_cons_of_pos _ (by simpa using ht)]
        rfl
      rw [hfind]
      rcases List.mem_cons.mp hm with h | h
      · rw [← h]
      · have hlt : a.1 < t := ho'.1 (t, v) h
        rw [ht] at hlt
        exact absurd hlt (lt_irrefl t)
    · have hm' : (t, v) ∈ tl := by
        rcases List.mem_cons.mp hm with h | h
        · exact absurd (congrArg Prod.fst h.symm) ht
        · exact h
      unfold sampleAt
      rw [List.find?_cons_of_neg _ (by simpa using ht)]
      exact ih ho'.2 hm'

/-! ### Claim theorems -/

/-- C3: for every state `(theta, omega)`, time `t`, and system with radius
`r`, force `F`, friction torque `tau_f` and inertia `I`, `slope_func`
returns exactly the pair `(omega, (r*F - tau_f)/I)`, and its result does
not depend on `t` (it is a pure function of its arguments by
construction). -/
theorem slope_func_spec (st : State) (t t' : ℚ) (sys : System) :
    slope_func st t sys =
      (st.omega, (sys.radius_disk * sys.force - sys.torque_friction) / sys.I) ∧
    slope_func st t sys = slope_func st t' sys :=
  ⟨rfl, rfl⟩

/-- C4: the phase-1 boundary detector returns exactly
`theta - theta_end` and the phase-2 boundary detector returns exactly
`omega`; both are pure functions of the (state, time, system) triple and
do not depend on the time argument. -/
theorem event_funcs_spec (st : State) (t t' : ℚ) (sys : System) :
    event_func1 st t sys = st.theta - sys.theta_end ∧
    event_func2 st t sys = st.omega ∧
    event_func1 st t sys = event_func1 st t' sys ∧
    event_func2 st t sys = event_func2 st t' sys :=
  ⟨rfl, rfl, rfl, rfl⟩

/-- C5: in every run of `run_two_phases` the phase-2 system is derived
from the phase-1 system with force set to zero, start time set to the
final time label of the phase-1 trajectory, initial state set to the
final state of the phase-1 trajectory, and every other field copied; and
the driver's result is the splice of the phase-1 trajectory with the
trajectory obtained by integrating exactly that phase-2 system. -/
theorem system2_derivation (f tf : ℚ) (p : Params) :
    (system2_of f tf p).force = 0 ∧
    (system2_of f tf p).t_0 = last_label (results1_of f tf p) ∧
    (system2_of f tf p).init = last_row (results1_of f tf p) ∧
    (system2_of f tf p).radius_disk = (system1_of f tf p).radius_disk ∧
    (system2_of f tf p).mass_disk = (system1_of f tf p).mass_disk ∧
    (system2_of f tf p).radius_pot = (system1_of f tf p).radius_pot ∧
    (system2_of f tf p).mass_pot = (system1_of f tf p).mass_pot ∧
    (system2_of f tf p).torque_friction = (system1_of f tf p).torque_friction ∧
    (system2_of f tf p).theta_end = (system1_of f tf p).theta_end ∧
    (system2_of f tf p).t_end = (system1_of f tf p).t_end ∧
    (system2_of f tf p).I = (system1_of f tf p).I ∧
    run_two_phases f tf p =
      combineFirst (results1_of f tf p)
        (run_ode_solver (system2_of f tf p) slope_func event_func2).1 :=
  ⟨rfl, rfl, rfl, rfl, rfl, rfl, rfl, rfl, rfl, rfl, rfl, rfl⟩

/-- C6: both systems the core constructs — the phase-1 system built by
`make_system` and the phase-2 system derived from it — store a moment of
inertia equal to the value determined by their own mass and radius
fields, `mass_disk * radius_disk^2 / 2 + mass_pot * radius_pot^2`. -/
theorem inertia_invariant (p : Params) (f tf : ℚ) :
    (make_system p).I =
      (make_system p).mass_disk * (make_system p).radius_disk ^ 2 / 2 +
        (make_system p).mass_pot * (make_system p).radius_pot ^ 2 ∧
    (system2_of f tf p).I =
      (system2_of f tf p).mass_disk * (system2_of f tf p).radius_disk ^ 2 / 2 +
        (system2_of f tf p).mass_pot * (system2_of f tf p).radius_pot ^ 2 :=
  ⟨rfl, rfl⟩

/-- C7: `make_system` returns a system whose initial state is exactly
`theta = 0`, `omega = 0`, and the phase-1 trajectory inside
`run_two_phases` starts at time 0 from that zero state. -/
theorem zero_initial_state (p : Params) (f tf : ℚ) :
    (make_system p).init = { theta := 0, omega := 0 } ∧
    (results1_of f tf p).head? = some (0, { theta := 0, omega := 0 }) :=
  ⟨rfl, run_ode_solver_fst_head (system1_of f tf p) slope_func event_func1⟩

/-- C8: the friction-calibration error function returns exactly the final
angle of the two-phase simulation run with the force fixed at 1 newton
and the guessed friction torque, minus the observed target angle of 1.5
radians. -/
theorem error_func1_spec (tf : ℚ) (p : Params) :
    error_func1 tf p = (last_row (run_two_phases 1 tf p)).theta - 3 / 2 :=
  rfl

/-- C9: `run_two_phases` is deterministic — two calls with equal force,
equal friction torque and equal base configuration return identical
trajectories (the embedding of the driver is a pure function: the source
reads its arguments and module-level constants only and mutates no global
state). -/
theorem run_two_phases_deterministic (f₁ f₂ tf₁ tf₂ : ℚ) (p₁ p₂ : Params)
    (hf : f₁ = f₂) (htf : tf₁ = tf₂) (hp : p₁ = p₂) :
    run_two_phases f₁ tf₁ p₁ = run_two_phases f₂ tf₂ p₂ := by
  rw [hf, htf, hp]

/-- Witness for C9 at the notebook's reference inputs. -/
theorem run_two_phases_deterministic_witness :
    (1 : ℚ) = 1 ∧ (1 / 5 : ℚ) = 1 / 5 ∧ params₀ = params₀ ∧
    run_two_phases 1 (1 / 5) params₀ = run_two_phases 1 (1 / 5) params₀ :=
  ⟨rfl, rfl, rfl,
    run_two_phases_deterministic 1 1 (1 / 5) (1 / 5) params₀ params₀ rfl rfl rfl⟩

/-- C10: the `force` and `torque_friction` fields of the base
configuration do not influence `run_two_phases` or `error_func1`: for any
override of those two fields the outputs are unchanged, because the
driver replaces both with its explicit arguments before building any
system. -/
theorem base_force_friction_ignored (f tf f' tf' : ℚ) (p : Params) :
    run_two_phases f tf { p with force := f', torque_friction := tf' } =
      run_two_phases f tf p ∧
    error_func1 tf { p with force := f', torque_friction := tf' } =
      error_func1 tf p := by
  cases p
  exact ⟨rfl, rfl⟩

/-- C1: the spliced trajectory returned by `run_two_phases` is
time-ordered, the phase-2 trajectory begins exactly at the coincident
splice timestamp (phase-1's final time) with the phase-2 initial sample,
and at that timestamp the spliced trajectory's sample equals the phase-2
sample. -/
theorem splice_spec (f tf : ℚ) (p : Params) :
    timeOrdered (run_two_phases f tf p) ∧
    (results2_of f tf p).head? = some (t0_of f tf p, init2_of f tf p) ∧
    sampleAt (run_two_phases f tf p) (t0_of f tf p) = some (init2_of f tf p) ∧
    sampleAt (results2_of f tf p) (t0_of f tf p) = some (init2_of f tf p) := by
  have h1 : timeOrdered (results1_of f tf p) :=
    run_ode_solver_fst_timeOrdered (system1_of f tf p) slope_func event_func1
  have h2 : timeOrdered (results2_of f tf p) :=
    run_ode_solver_fst_timeOrdered (system2_of f tf p) slope_func event_func2
  have hne : results1_of f tf p ≠ [] :=
    run_ode_solver_fst_ne_nil (system1_of f tf p) slope_func event_func1
  have hmem : (t0_of f tf p, init2_of f tf p) ∈ results1_of f tf p :=
    last_mem (results1_of f tf p) hne
  have hcomb : timeOrdered (combineFirst (results1_of f tf p) (results2_of f tf p)) :=
    timeOrdered_combineFirst _ _ h1 h2
  have hhead : (results2_of f tf p).head? = some (t0_of f tf p, init2_of f tf p) :=
    run_ode_solver_fst_head (system2_of f tf p) slope_func event_func2
  refine ⟨hcomb, hhead, ?_, ?_⟩
  · exact sampleAt_eq_of_mem _ hcomb _ _ (left_mem_combineFirst _ _ _ hmem)
  · cases hres : results2_of f tf p with
    | nil => rw [hres] at hhead; exact Option.noConfusion hhead
    | cons a tl =>
      rw [hres] at hhead
      have ha : a = (t0_of f tf p, init2_of f tf p) := by
        simpa using hhead
      rw [ha]
      exact sampleAt_cons_self _ _ tl

/-- The event never fires on a step across which the event value does not
change. -/
theorem eventFires_self (c : ℚ) : eventFires c c = false := by
  simp only [eventFires, decide_eq_false_iff_not]
  rintro (⟨h1, h2⟩ | ⟨h1, h2⟩)
  · exact absurd (h1.trans_le h2) (lt_irrefl c)
  · exact absurd (h2.trans_lt h1) (lt_irrefl c)

/-- If the state is a fixed point of the Euler step and the event function
is time-invariant at that state, the integrator never fires the event and
runs to the horizon. -/
theorem integrateGo_horizon_of_fixpoint (slope : State → ℚ → System → ℚ × ℚ)
    (events : State → ℚ → System → ℚ) (system : System) (dt : ℚ) (st : State)
    (hfix : ∀ t, euler_step slope system t dt st = st)
    (hev : ∀ t t', events st t system = events st t' system) :
    ∀ (k : ℕ) (t : ℚ),
      (integrateGo slope events system dt k t st).2 = TermReason.horizon := by
  intro k
  induction k with
  | zero => intro t; rfl
  | succ k ih =>
    intro t
    simp only [integrateGo]
    rw [hfix t, ← hev t (t + dt), eventFires_self]
    simp only [Bool.false_eq_true, if_false]
    exact ih (t + dt)

/-- With zero force and zero friction torque the turntable never moves, so
the phase-1 event (reaching `theta_end = 0.5`) never fires and phase 1
runs to the horizon. -/
theorem details1_horizon_zero :
    details1_of 0 0 params₀ = TermReason.horizon := by
  unfold details1_of
  unfold run_ode_solver
  rw [if_pos]
  · apply integrateGo_horizon_of_fixpoint
    · intro t
      simp [euler_step, slope_func, system1_of, phase1_params, make_system, params₀]
    · intro t t'
      rfl
  · show (0 : ℚ) < 20
    norm_num

/-- C2 counterexample: with zero force and zero friction, phase 1 runs to
the horizon without reaching `theta_end`; the spec's driver signals
`phaseIncomplete` there, but `run_two_phases` proceeds and returns a
(nonempty) spliced trajectory — it performs no phase-1 completeness
check. -/
theorem phase1_incomplete_unchecked_cex :
    details1_of 0 0 params₀ = TermReason.horizon ∧
    run_two_phases_spec 0 0 params₀ = Except.error PhaseError.phaseIncomplete ∧
    run_two_phases 0 0 params₀ ≠ [] := by
  refine ⟨details1_horizon_zero, ?_, ?_⟩
  · simp only [run_two_phases_spec]
    split
    · rfl
    next hc => exact absurd details1_horizon_zero hc
  · have hne : results1_of 0 0 params₀ ≠ [] :=
      run_ode_solver_fst_ne_nil (system1_of 0 0 params₀) slope_func event_func1
    exact List.ne_nil_of_mem
      (left_mem_combineFirst _ _ _ (last_mem (results1_of 0 0 params₀) hne))

/-- C2 (amended): `run_two_phases` does not inspect the phase-1
termination report — even when phase 1 runs to the horizon without the
event firing, it proceeds to build phase 2 from the partial phase-1
trajectory and returns the (nonempty) spliced result. -/
theorem run_two_phases_proceeds_when_incomplete (f tf : ℚ) (p : Params)
    (h : details1_of f tf p = TermReason.horizon) :
    run_two_phases f tf p =
      combineFirst (results1_of f tf p) (results2_of f tf p) ∧
    run_two_phases f tf p ≠ [] := by
  refine ⟨rfl, ?_⟩
  have hne : results1_of f tf p ≠ [] :=
    run_ode_solver_fst_ne_nil (system1_of f tf p) slope_func event_func1
  exact List.ne_nil_of_mem
    (left_mem_combineFirst _ _ _ (last_mem (results1_of f tf p) hne))

/-- Witness for the amended C2 at the concrete incomplete input. -/
theorem run_two_phases_proceeds_when_incomplete_witness :
    details1_of 0 0 params₀ = TermReason.horizon ∧
    (run_two_phases 0 0 params₀ =
        combineFirst (results1_of 0 0 params₀) (results2_of 0 0 params₀) ∧
      run_two_phases 0 0 params₀ ≠ []) :=
  ⟨details1_horizon_zero,
    run_two_phases_proceeds_when_incomplete 0 0 params₀ details1_horizon_zero⟩

end Chap25
